import Mathlib

set_option maxRecDepth 100000

/-!
Verification of the address-conversion contract: a counter state machine
(`instantiate` / `execute` / `query_count` in `src/contract.rs`) together with
a bech32 address codec (`to_bech32_addr` / `from_bech32_addr`), which call
into the external `bech32` crate.  The crate's code is not part of `src/`,
so its encoder and decoder are modelled from the specification (spec.md §3,
§4.1, §7): 5-bit regrouping of the 32-byte payload, the BCH-style polynomial
checksum over GF(2) seeded by the tag expansion, the restricted 32-character
alphabet, and the error taxonomy.
-/

namespace AddrConv

/-- Modelled from the spec: the restricted base-32 alphabet
("charset excludes visually ambiguous characters 1, b, i, o"),
in the fixed order used by the bech32 encoding. -/
def CHARSET : List Char :=
  ['q', 'p', 'z', 'r', 'y', '9', 'x', '8',
   'g', 'f', '2', 't', 'v', 'd', 'w', '0',
   's', '3', 'j', 'n', '5', '4', 'k', 'h',
   'c', 'e', '6', 'm', 'u', 'a', '7', 'l']

/-- Map a 5-bit group to its alphabet character. -/
def charsetChar (g : Nat) : Char := CHARSET.getD g 'q'

/-- Reverse lookup into the restricted alphabet; `none` for a character
outside the alphabet. -/
def charsetRev (c : Char) : Option Nat := CHARSET.findIdx? (· = c)

/-- Modelled from the spec: one step of the polynomial checksum over GF(2)
with the fixed generator (BCH-style).  The five generator constants are
xored in according to the top five bits of the running checksum. -/
def feedback (b : Nat) : Nat :=
  (if (b >>> 0) &&& 1 = 1 then 0x3b6a57b2 else 0) ^^^
  (if (b >>> 1) &&& 1 = 1 then 0x26508e6d else 0) ^^^
  (if (b >>> 2) &&& 1 = 1 then 0x1ea119fa else 0) ^^^
  (if (b >>> 3) &&& 1 = 1 then 0x3d4233dd else 0) ^^^
  (if (b >>> 4) &&& 1 = 1 then 0x2a1462b3 else 0)

/-- One iteration of the checksum loop: shift the low 25 bits up by one
group, xor in the next 5-bit value, then apply the generator feedback
selected by the old top bits. -/
def polymodStep (chk v : Nat) : Nat :=
  (((chk &&& 0x1ffffff) <<< 5) ^^^ v) ^^^ feedback (chk >>> 25)

/-- Modelled from the spec: the polynomial checksum of a sequence of 5-bit
groups, seeded with 1. -/
def polymod (values : List Nat) : Nat := values.foldl polymodStep 1

/-- Modelled from the spec: tag expansion — "high 3 bits of each character
separately from low 5 bits, concatenated, plus a zero separator group". -/
def hrpExpand (hrp : List Nat) : List Nat :=
  hrp.map (· >>> 5) ++ [0] ++ hrp.map (· &&& 31)

/-- Checksum verification: recomputing the checksum over the tag expansion
and all data groups (checksum groups included) must give exactly 1. -/
def verifyChecksum (hrp data : List Nat) : Bool :=
  polymod (hrpExpand hrp ++ data) == 1

/-- Split a 30-bit checksum value into its 6 five-bit groups, high first. -/
def extract6 (m : Nat) : List Nat :=
  [(m >>> 25) &&& 31, (m >>> 20) &&& 31, (m >>> 15) &&& 31,
   (m >>> 10) &&& 31, (m >>> 5) &&& 31, m &&& 31]

/-- Modelled from the spec: the 6 checksum groups appended after the data
part — polymod over tag expansion, data and six zero groups, xored with 1. -/
def createChecksum (hrp data : List Nat) : List Nat :=
  extract6 (polymod (hrpExpand hrp ++ data ++ List.replicate 6 0) ^^^ 1)

/-- Is `c` in the range of bytes permitted in a tag (ASCII 33..126)? -/
def hrpCharOk (c : Char) : Bool := 33 ≤ c.toNat && c.toNat ≤ 126

/-- Is `c` an ASCII uppercase letter? -/
def isUpperCh (c : Char) : Bool := 65 ≤ c.toNat && c.toNat ≤ 90

/-- Is `c` an ASCII lowercase letter? -/
def isLowerCh (c : Char) : Bool := 97 ≤ c.toNat && c.toNat ≤ 122

/-- Modelled from the spec: encoding failures — "tag contains characters
outside the permitted charset, tag is empty, or the combined length would
exceed the maximum". -/
inductive EncodingError where
  | InvalidChar
  | InvalidLength
  | MixedCase
  deriving DecidableEq

/-- Modelled from the spec: the decoding error taxonomy (spec.md §7). -/
inductive DecodingError where
  | MissingSeparator
  | InvalidCharacter
  | TagEmpty
  | TagTooLong
  | ChecksumMismatch
  | InvalidLength
  deriving DecidableEq

/-- Modelled from the spec: validity check of the tag on encoding.  The tag
must be nonempty, at most 83 characters (with the fixed 59-character
separator-plus-body of a 32-byte payload this is the combined length
maximum), every character in the ASCII range 33..126, and of uniform case;
an all-uppercase tag is folded to lowercase. -/
def checkHrp (hrp : List Char) : Except EncodingError (List Char) :=
  if hrp.length = 0 || hrp.length > 83 then .error .InvalidLength
  else if !(hrp.all hrpCharOk) then .error .InvalidChar
  else if (hrp.any isUpperCh) && (hrp.any isLowerCh) then .error .MixedCase
  else if hrp.any isUpperCh then .ok (hrp.map Char.toLower)
  else .ok hrp

/-- Modelled from the spec: the bech32 encoder — the checked tag, the
separator "1", then the data groups and the 6 checksum groups mapped
through the restricted alphabet. -/
def bech32Encode (hrp : List Char) (data : List Nat) :
    Except EncodingError (List Char) :=
  match checkHrp hrp with
  | .error e => .error e
  | .ok h =>
    let combined := data ++ createChecksum (h.map Char.toNat) data
    .ok (h ++ '1' :: combined.map charsetChar)

/-- Split a character list at the last occurrence of the separator '1':
returns (everything before it, everything after it), or `none` when no
separator occurs. -/
def rsplit1 : List Char → Option (List Char × List Char)
  | [] => none
  | c :: rest =>
    match rsplit1 rest with
    | some (t, b) => some (c :: t, b)
    | none => if c = '1' then some ([], rest) else none

/-- Map every body character through the reverse alphabet lookup, failing
on the first character outside the restricted alphabet. -/
def revGroups : List Char → Option (List Nat)
  | [] => some []
  | c :: cs =>
    match charsetRev c, revGroups cs with
    | some g, some gs => some (g :: gs)
    | _, _ => none

/-- Modelled from the spec: the bech32 decoder — locate the last separator,
validate the tag (this core consumes canonical lowercase only), map the body
through the restricted alphabet, check the length and the checksum, and
return the tag with the data groups (the 6 checksum groups removed). -/
def bech32Decode (s : List Char) :
    Except DecodingError (List Char × List Nat) :=
  match rsplit1 s with
  | none => .error .MissingSeparator
  | some (tag, body) =>
    if tag.length = 0 then .error .TagEmpty
    else if tag.length > 83 then .error .TagTooLong
    else if !(tag.all fun c => hrpCharOk c && !(isUpperCh c)) then
      .error .InvalidCharacter
    else
      match revGroups body with
      | none => .error .InvalidCharacter
      | some groups =>
        if body.length < 6 then .error .InvalidLength
        else if verifyChecksum (tag.map Char.toNat) groups then
          .ok (tag, groups.take (groups.length - 6))
        else .error .ChecksumMismatch

/-- The 8 bits of a byte, most significant first. -/
def byteBits (b : Nat) : List Bool :=
  [b.testBit 7, b.testBit 6, b.testBit 5, b.testBit 4,
   b.testBit 3, b.testBit 2, b.testBit 1, b.testBit 0]

/-- The 5 bits of a group, most significant first. -/
def groupBits (g : Nat) : List Bool :=
  [g.testBit 4, g.testBit 3, g.testBit 2, g.testBit 1, g.testBit 0]

/-- The bit stream of a byte sequence, most significant bit first. -/
def bytesBits : List Nat → List Bool
  | [] => []
  | b :: bs => byteBits b ++ bytesBits bs

/-- The bit stream of a 5-bit-group sequence, most significant bit first. -/
def groupsBits : List Nat → List Bool
  | [] => []
  | g :: gs => groupBits g ++ groupsBits gs

/-- The value of a bit list read most significant bit first. -/
def bitsVal : List Bool → Nat :=
  List.foldl (fun a b => 2 * a + (if b then 1 else 0)) 0

/-- Regroup a bit stream into 5-bit groups, the last group padded with
zero bits. -/
def bitsTo5 : List Bool → List Nat
  | [] => []
  | [a] => [bitsVal [a] <<< 4]
  | [a, b] => [bitsVal [a, b] <<< 3]
  | [a, b, c] => [bitsVal [a, b, c] <<< 2]
  | [a, b, c, d] => [bitsVal [a, b, c, d] <<< 1]
  | a :: b :: c :: d :: e :: rest => bitsVal [a, b, c, d, e] :: bitsTo5 rest

/-- Regroup a bit stream into bytes; trailing bits that do not fill a
whole byte are ignored. -/
def bitsTo8 : List Bool → List Nat
  | a :: b :: c :: d :: e :: f :: g :: h :: rest =>
    bitsVal [a, b, c, d, e, f, g, h] :: bitsTo8 rest
  | _ => []

/-- Modelled from the spec: regroup the payload bytes (8-bit values) into
5-bit groups, the last group padded with zero bits ("Regroups the 32-byte
payload (256 bits) into 5-bit groups (52 groups, last group padded with
zero bits)"). -/
def toBase32 (bs : List Nat) : List Nat := bitsTo5 (bytesBits bs)

/-- Modelled from the spec: reassemble 5-bit groups into bytes; fails when
more than 4 bits are left over, or when any leftover padding bit is
nonzero ("non-zero padding bits where zero is required"). -/
def fromBase32 (gs : List Nat) : Except DecodingError (List Nat) :=
  let bits := groupsBits gs
  let r := bits.length % 8
  if 5 ≤ r then .error .InvalidLength
  else if (bits.drop (bits.length - r)).any (fun b => b) then
    .error .InvalidLength
  else .ok (bitsTo8 (bits.take (bits.length - r)))

/-- Response of the `ToBech32` query (src/msg.rs). -/
structure Bech32AddrResponse where
  bech32_addr : String
  deriving DecidableEq

/-- Response of the `FromBech32` query (src/msg.rs); `pfx` models the
`prefix` field (that word is reserved in Lean) and `bytes` the `[u8; 32]`
array. -/
structure BytesAddrResponse where
  pfx : String
  bytes : List Nat
  deriving DecidableEq

/-- `to_bech32_addr` from src/contract.rs: encode the 32 payload bytes,
regrouped to base 32, with the given tag.  The source unwraps the
encoder's result, so an encoding error aborts the call: `none` models
that panic. -/
def to_bech32_addr (pfx : String) (bytes : List Nat) :
    Option Bech32AddrResponse :=
  match bech32Encode pfx.data (toBase32 bytes) with
  | .ok s => some ⟨String.mk s⟩
  | .error _ => none

/-- The `iter_mut().zip(&data)` copy loop of `from_bech32_addr`: overwrite
the front of the first list with the second, leaving the tail of the first
list unchanged and dropping any excess of the second. -/
def copyZip : List Nat → List Nat → List Nat
  | [], _ => []
  | bs, [] => bs
  | _ :: bs, d :: ds => d :: copyZip bs ds

/-- `from_bech32_addr` from src/contract.rs: decode the string, reassemble
the groups into bytes, and copy them over a zeroed 32-byte array.  The
source unwraps both fallible steps, so a decoding error aborts the call:
`none` models that panic. -/
def from_bech32_addr (addr : String) : Option BytesAddrResponse :=
  match bech32Decode addr.data with
  | .error _ => none
  | .ok (tag, data) =>
    match fromBase32 data with
    | .error _ => none
    | .ok dbytes =>
      some ⟨String.mk tag, copyZip (List.replicate 32 0) dbytes⟩

/-- Counter state (src/state.rs is not under src/; modelled from the spec:
"{ count: signed 32-bit integer, owner: an opaque caller identity }").
The i32 is embedded as an `Int` kept in two's-complement range by `wrap32`
where arithmetic occurs; the `Addr` owner is its string. -/
structure State where
  count : Int
  owner : String
  deriving DecidableEq

/-- Contract errors (src/error.rs is not under src/; modelled from the spec:
`Unauthorized` for the failed ownership check).  `NotFound` stands for the
storage error raised when no state record exists. -/
inductive ContractError where
  | Unauthorized
  | NotFound
  deriving DecidableEq

/-- The persisted storage: the state record under its fixed key, plus the
contract-version marker record written at instantiation and never read. -/
structure Storage where
  state : Option State
  contractVersion : Option (String × String)
  deriving DecidableEq

/-- Caller identity, as carried by `MessageInfo::sender`. -/
structure MessageInfo where
  sender : String

/-- A response record: the list of descriptive attributes added to it. -/
structure Response where
  attributes : List (String × String)
  deriving DecidableEq

/-- Response of the `GetCount` query (src/msg.rs). -/
structure CountResponse where
  count : Int
  deriving DecidableEq

/-- The `ExecuteMsg` commands (src/msg.rs). -/
inductive ExecuteMsg where
  | Increment
  | Reset (count : Int)

/-- Version-marker name constant from src/contract.rs. -/
def CONTRACT_NAME : String := "crates.io:counter-1-0"

/-- Modelled from the spec: the version string of the marker record (the
source reads it from the build environment, which is not under src/; the
spec says it is "written once at initialize and never read by this core's
logic"). -/
def CONTRACT_VERSION : String := "0.1.0"

/-- Two's-complement wrap of an integer into the i32 range. -/
def wrap32 (n : Int) : Int := (n + 2 ^ 31) % 2 ^ 32 - 2 ^ 31

/-- `instantiate` from src/contract.rs: store the caller as owner with the
given count, write the version marker, and answer with the three
instantiation attributes. -/
def instantiate (_store : Storage) (info : MessageInfo) (count : Int) :
    Except ContractError (Storage × Response) :=
  .ok ({ state := some ⟨count, info.sender⟩,
         contractVersion := some (CONTRACT_NAME, CONTRACT_VERSION) },
       ⟨[("method", "instantiate"), ("owner", info.sender),
         ("count", toString count)]⟩)

/-- `try_increment` from src/contract.rs: update the stored state by adding
1 to the count (i32 arithmetic), for any caller. -/
def try_increment (store : Storage) :
    Except ContractError (Storage × Response) :=
  match store.state with
  | none => .error .NotFound
  | some s =>
    .ok ({ store with state := some { s with count := wrap32 (s.count + 1) } },
         ⟨[("method", "try_increment")]⟩)

/-- `try_reset` from src/contract.rs: fail with `Unauthorized` unless the
caller is the stored owner, else overwrite the count. -/
def try_reset (store : Storage) (info : MessageInfo) (count : Int) :
    Except ContractError (Storage × Response) :=
  match store.state with
  | none => .error .NotFound
  | some s =>
    if info.sender ≠ s.owner then .error .Unauthorized
    else .ok ({ store with state := some { s with count := count } },
              ⟨[("method", "reset")]⟩)

/-- `execute` from src/contract.rs: dispatch the two commands. -/
def execute (store : Storage) (info : MessageInfo) (msg : ExecuteMsg) :
    Except ContractError (Storage × Response) :=
  match msg with
  | .Increment => try_increment store
  | .Reset count => try_reset store info count

/-- One host-level command: on success the new storage is persisted, on
error the old storage is kept (the call is transactional). -/
def step (store : Storage) (info : MessageInfo) (msg : ExecuteMsg) :
    Storage × Except ContractError Response :=
  match execute store info msg with
  | .ok (store', r) => (store', .ok r)
  | .error e => (store, .error e)

/-- `query_count` from src/contract.rs: read the stored count. -/
def query_count (store : Storage) : Option CountResponse :=
  store.state.map (fun s => ⟨s.count⟩)

/-! ### Bitwise helper lemmas -/

theorem xor_shiftLeft_distrib (a b n : Nat) :
    (a ^^^ b) <<< n = a <<< n ^^^ b <<< n := by
  apply Nat.eq_of_testBit_eq
  intro i
  simp only [Nat.testBit_shiftLeft, Nat.testBit_xor]
  cases h : decide (n ≤ i) <;> simp

theorem xor_shiftRight_distrib (a b n : Nat) :
    (a ^^^ b) >>> n = a >>> n ^^^ b >>> n := by
  apply Nat.eq_of_testBit_eq
  intro i
  simp

theorem shiftRight_eq_zero_of_lt {t n : Nat} (h : t < 2 ^ n) : t >>> n = 0 := by
  rw [Nat.shiftRight_eq_div_pow]
  exact Nat.div_eq_of_lt h

theorem and_two_pow_sub_one_of_lt {t n : Nat} (h : t < 2 ^ n) :
    t &&& (2 ^ n - 1) = t := by
  apply Nat.eq_of_testBit_eq
  intro i
  simp only [Nat.testBit_and, Nat.testBit_two_pow_sub_one]
  rcases Nat.lt_or_ge i n with hi | hi
  · simp [hi]
  · have ht : t.testBit i = false :=
      Nat.testBit_lt_two_pow
        (Nat.lt_of_lt_of_le h (Nat.pow_le_pow_right (by norm_num) hi))
    simp [ht]

theorem xor_left_comm_nat (a b c : Nat) : a ^^^ (b ^^^ c) = b ^^^ (a ^^^ c) := by
  rw [← Nat.xor_assoc, Nat.xor_comm a b, Nat.xor_assoc]

/-! ### Linearity of the checksum in its trailing groups -/

theorem feedback_lt (b : Nat) : feedback b < 2 ^ 30 := by
  unfold feedback
  repeat' apply Nat.xor_lt_two_pow
  all_goals split <;> norm_num

theorem polymodStep_lt {v : Nat} (c : Nat) (hv : v < 2 ^ 30) :
    polymodStep c v < 2 ^ 30 := by
  unfold polymodStep
  apply Nat.xor_lt_two_pow _ (feedback_lt _)
  apply Nat.xor_lt_two_pow _ hv
  have h : c &&& 0x1ffffff ≤ 0x1ffffff := Nat.and_le_right
  rw [Nat.shiftLeft_eq]
  omega

theorem foldl_polymodStep_lt :
    ∀ (l : List Nat) (c : Nat), c < 2 ^ 30 → (∀ v ∈ l, v < 2 ^ 30) →
      l.foldl polymodStep c < 2 ^ 30 := by
  intro l
  induction l with
  | nil => intro c hc _; exact hc
  | cons v l ih =>
    intro c _ hl
    exact ih _ (polymodStep_lt c (hl v (by simp)))
      (fun w hw => hl w (by simp [hw]))

theorem polymodStep_xor (c t v : Nat) (ht : t < 2 ^ 25) :
    polymodStep (c ^^^ t) v = polymodStep c v ^^^ t <<< 5 := by
  unfold polymodStep
  have e : (0x1ffffff : Nat) = 2 ^ 25 - 1 := by norm_num
  have h1 : (c ^^^ t) >>> 25 = c >>> 25 := by
    rw [xor_shiftRight_distrib, shiftRight_eq_zero_of_lt ht, Nat.xor_zero]
  have h2 : (c ^^^ t) &&& 0x1ffffff = (c &&& 0x1ffffff) ^^^ t := by
    rw [Nat.and_xor_distrib_right, e, and_two_pow_sub_one_of_lt ht]
  rw [h1, h2, xor_shiftLeft_distrib]
  simp only [Nat.xor_assoc]
  rw [xor_left_comm_nat (t <<< 5), Nat.xor_comm (t <<< 5)]

theorem polymodStep_split (c v : Nat) :
    polymodStep c v = polymodStep c 0 ^^^ v := by
  unfold polymodStep
  simp only [Nat.xor_zero, Nat.xor_assoc]
  rw [Nat.xor_comm v]

theorem foldl_polymodStep_xor :
    ∀ (xs : List Nat) (c t : Nat), t * 2 ^ (5 * xs.length) < 2 ^ 30 →
      xs.foldl polymodStep (c ^^^ t) =
        xs.foldl polymodStep c ^^^ t <<< (5 * xs.length) := by
  intro xs
  induction xs with
  | nil => intro c t _; simp
  | cons x xs ih =>
    intro c t ht
    have hlen : 2 ^ 5 ≤ 2 ^ (5 * (x :: xs).length) := by
      apply Nat.pow_le_pow_right (by norm_num)
      simp [Nat.mul_succ]
    have ht25 : t < 2 ^ 25 := by
      rcases Nat.eq_zero_or_pos t with h0 | h0
      · omega
      · have : t * 2 ^ 5 ≤ t * 2 ^ (5 * (x :: xs).length) :=
          Nat.mul_le_mul_left t hlen
        have := Nat.lt_of_le_of_lt this ht
        omega
    have hexp : 5 * (x :: xs).length = 5 * xs.length + 5 := by
      rw [List.length_cons]; ring
    have hmul : t <<< 5 * 2 ^ (5 * xs.length) = t * 2 ^ (5 * (x :: xs).length) := by
      rw [Nat.shiftLeft_eq, hexp, Nat.pow_add]
      ring
    show (x :: xs).foldl polymodStep (c ^^^ t) = _
    rw [List.foldl_cons, List.foldl_cons,
        polymodStep_xor c t x ht25, ih (polymodStep c x) (t <<< 5) (by rw [hmul]; exact ht)]
    congr 1

/-- Proof gadget: the value of a group list placed in the top positions of
a 30-bit word, high group first. -/
def pack : List Nat → Nat
  | [] => 0
  | x :: xs => x <<< (5 * xs.length) ^^^ pack xs

theorem foldl_polymodStep_pack :
    ∀ (xs : List Nat) (c : Nat), (∀ x ∈ xs, x < 32) → xs.length ≤ 6 →
      xs.foldl polymodStep c =
        (List.replicate xs.length 0).foldl polymodStep c ^^^ pack xs := by
  intro xs
  induction xs with
  | nil => intro c _ _; simp [pack]
  | cons x xs ih =>
    intro c hx hlen
    have hx32 : x < 32 := hx x (by simp)
    have hbound : x * 2 ^ (5 * xs.length) < 2 ^ 30 := by
      have h1 : 2 ^ (5 * xs.length) ≤ 2 ^ 25 := by
        apply Nat.pow_le_pow_right (by norm_num)
        simp at hlen
        omega
      calc x * 2 ^ (5 * xs.length) ≤ x * 2 ^ 25 := Nat.mul_le_mul_left x h1
        _ < 32 * 2 ^ 25 := by
            apply Nat.mul_lt_mul_of_lt_of_le hx32 (Nat.le_refl _) (by norm_num)
        _ = 2 ^ 30 := by norm_num
    rw [List.foldl_cons, polymodStep_split c x, foldl_polymodStep_xor xs _ x hbound,
        ih (polymodStep c 0) (fun w hw => hx w (by simp [hw])) (by simp at hlen ⊢; omega)]
    show _ = (List.replicate (xs.length + 1) 0).foldl polymodStep c ^^^ pack (x :: xs)
    rw [List.replicate_succ, List.foldl_cons, pack]
    simp only [Nat.xor_assoc]
    rw [Nat.xor_comm (pack xs)]

theorem pack_extract6 (m : Nat) (hm : m < 2 ^ 30) : pack (extract6 m) = m := by
  have h31 : ∀ a j : Nat, (a &&& 31).testBit j = (a.testBit j && decide (j < 5)) := by
    intro a j
    have e : (31 : Nat) = 2 ^ 5 - 1 := by norm_num
    rw [e, Nat.testBit_and, Nat.testBit_two_pow_sub_one]
  apply Nat.eq_of_testBit_eq
  intro i
  simp only [pack, extract6, List.length_cons, List.length_nil, Nat.testBit_xor,
    Nat.testBit_shiftLeft, h31, Nat.testBit_shiftRight, Nat.shiftLeft_zero]
  norm_num
  rcases Nat.lt_or_ge i 30 with hi | hi
  · interval_cases i <;> simp
  · have hmf : m.testBit i = false :=
      Nat.testBit_lt_two_pow
        (Nat.lt_of_lt_of_le hm (Nat.pow_le_pow_right (by norm_num) hi))
    have c1 : ¬(i - 25 < 5) := by omega
    have c2 : ¬(i - 20 < 5) := by omega
    have c3 : ¬(i - 15 < 5) := by omega
    have c4 : ¬(i - 10 < 5) := by omega
    have c5 : ¬(i - 5 < 5) := by omega
    have c6 : ¬(i < 5) := by omega
    simp [c1, c2, c3, c4, c5, c6, hmf]

theorem extract6_lt (m : Nat) : ∀ g ∈ extract6 m, g < 32 := by
  intro g hg
  simp only [extract6, List.mem_cons, List.not_mem_nil, or_false] at hg
  have h : ∀ a : Nat, a &&& 31 < 32 := by
    intro a
    have := Nat.and_le_right (n := a) (m := 31)
    omega
  rcases hg with h1 | h1 | h1 | h1 | h1 | h1 <;> rw [h1] <;> apply h

theorem extract6_length (m : Nat) : (extract6 m).length = 6 := rfl

/-- The central checksum identity: verifying the checksum created over the
same tag and data always succeeds. -/
theorem verify_create (hrpN gs : List Nat)
    (hv : ∀ v ∈ hrpExpand hrpN ++ gs, v < 2 ^ 30) :
    verifyChecksum hrpN (gs ++ createChecksum hrpN gs) = true := by
  have hc0 : (hrpExpand hrpN ++ gs).foldl polymodStep 1 < 2 ^ 30 :=
    foldl_polymodStep_lt _ 1 (by norm_num) hv
  have hc0' : List.foldl polymodStep
      (List.foldl polymodStep 1 (hrpExpand hrpN)) gs < 2 ^ 30 := by
    rw [← List.foldl_append]; exact hc0
  have hm' : List.foldl polymodStep (List.foldl polymodStep
      (List.foldl polymodStep 1 (hrpExpand hrpN)) gs)
      (List.replicate 6 0) < 2 ^ 30 := by
    apply foldl_polymodStep_lt _ _ hc0'
    intro v hvmem
    have h0 : v = 0 := List.eq_of_mem_replicate hvmem
    omega
  unfold verifyChecksum createChecksum
  simp only [polymod, ← List.append_assoc, List.foldl_append]
  rw [foldl_polymodStep_pack _ _ (extract6_lt _) (by rw [extract6_length])]
  rw [extract6_length, pack_extract6 _ (Nat.xor_lt_two_pow hm' (by norm_num))]
  rw [← Nat.xor_assoc, Nat.xor_self]
  simp

/-! ### Regrouping 8-bit bytes into 5-bit groups and back -/

theorem groupBits_val5 :
    ∀ a b c d e : Bool, groupBits (bitsVal [a, b, c, d, e]) = [a, b, c, d, e] := by
  decide

theorem groupBits_pad1 :
    ∀ a : Bool, groupBits (bitsVal [a] <<< 4) = [a] ++ List.replicate 4 false := by
  decide

theorem groupBits_pad2 :
    ∀ a b : Bool, groupBits (bitsVal [a, b] <<< 3) = [a, b] ++ List.replicate 3 false := by
  decide

theorem groupBits_pad3 :
    ∀ a b c : Bool,
      groupBits (bitsVal [a, b, c] <<< 2) = [a, b, c] ++ List.replicate 2 false := by
  decide

theorem groupBits_pad4 :
    ∀ a b c d : Bool,
      groupBits (bitsVal [a, b, c, d] <<< 1) = [a, b, c, d] ++ List.replicate 1 false := by
  decide

theorem groupsBits_bitsTo5 (B : List Bool) :
    groupsBits (bitsTo5 B) = B ++ List.replicate ((5 - B.length % 5) % 5) false := by
  induction B using bitsTo5.induct with
  | case1 => rfl
  | case2 a =>
    show groupBits (bitsVal [a] <<< 4) ++ groupsBits [] = _
    rw [groupBits_pad1]
    simp [groupsBits]
  | case3 a b =>
    show groupBits (bitsVal [a, b] <<< 3) ++ groupsBits [] = _
    rw [groupBits_pad2]
    simp [groupsBits]
  | case4 a b c =>
    show groupBits (bitsVal [a, b, c] <<< 2) ++ groupsBits [] = _
    rw [groupBits_pad3]
    simp [groupsBits]
  | case5 a b c d =>
    show groupBits (bitsVal [a, b, c, d] <<< 1) ++ groupsBits [] = _
    rw [groupBits_pad4]
    simp [groupsBits]
  | case6 a b c d e rest ih =>
    show groupBits (bitsVal [a, b, c, d, e]) ++ groupsBits (bitsTo5 rest) = _
    rw [groupBits_val5, ih]
    have hmod : (5 - (a :: b :: c :: d :: e :: rest).length % 5) % 5 =
        (5 - rest.length % 5) % 5 := by
      simp only [List.length_cons]
      omega
    rw [hmod]
    rfl

theorem bitsTo5_length (B : List Bool) :
    (bitsTo5 B).length = (B.length + 4) / 5 := by
  induction B using bitsTo5.induct with
  | case1 => rfl
  | case2 a => simp [bitsTo5]
  | case3 a b => simp [bitsTo5]
  | case4 a b c => simp [bitsTo5]
  | case5 a b c d => simp [bitsTo5]
  | case6 a b c d e rest ih =>
    show (bitsVal [a, b, c, d, e] :: bitsTo5 rest).length = _
    simp only [List.length_cons, ih]
    omega

theorem bitsVal5_lt : ∀ a b c d e : Bool, bitsVal [a, b, c, d, e] < 32 := by
  decide

theorem bitsTo5_lt (B : List Bool) : ∀ g ∈ bitsTo5 B, g < 32 := by
  induction B using bitsTo5.induct with
  | case1 => intro g hg; simp [bitsTo5] at hg
  | case2 a =>
    intro g hg
    simp only [bitsTo5, List.mem_singleton] at hg
    subst hg
    revert a; decide
  | case3 a b =>
    intro g hg
    simp only [bitsTo5, List.mem_singleton] at hg
    subst hg
    revert a b; decide
  | case4 a b c =>
    intro g hg
    simp only [bitsTo5, List.mem_singleton] at hg
    subst hg
    revert a b c; decide
  | case5 a b c d =>
    intro g hg
    simp only [bitsTo5, List.mem_singleton] at hg
    subst hg
    revert a b c d; decide
  | case6 a b c d e rest ih =>
    intro g hg
    simp only [bitsTo5, List.mem_cons] at hg
    rcases hg with hg | hg
    · subst hg; exact bitsVal5_lt a b c d e
    · exact ih g hg

theorem byteBits_val8 : ∀ x : Nat, x < 256 → bitsVal (byteBits x) = x := by
  decide

theorem bitsTo8_bytesBits :
    ∀ bs : List Nat, (∀ b ∈ bs, b < 256) → bitsTo8 (bytesBits bs) = bs := by
  intro bs
  induction bs with
  | nil => intro _; rfl
  | cons b bs ih =>
    intro h
    have hb : b < 256 := h b (by simp)
    have hrest : ∀ x ∈ bs, x < 256 := fun x hx => h x (by simp [hx])
    calc bitsTo8 (bytesBits (b :: bs))
        = bitsVal (byteBits b) :: bitsTo8 (bytesBits bs) := rfl
      _ = b :: bs := by rw [byteBits_val8 b hb, ih hrest]

theorem bytesBits_length : ∀ bs : List Nat, (bytesBits bs).length = 8 * bs.length := by
  intro bs
  induction bs with
  | nil => rfl
  | cons b bs ih =>
    show (byteBits b ++ bytesBits bs).length = 8 * (b :: bs).length
    simp only [List.length_append, ih, List.length_cons, byteBits, List.length_nil]
    ring

/-- A 32-byte payload regroups to 52 groups and back to exactly the same
32 bytes. -/
theorem fromBase32_toBase32 (bs : List Nat) (hlen : bs.length = 32)
    (h : ∀ b ∈ bs, b < 256) :
    fromBase32 (toBase32 bs) = .ok bs := by
  have hB : (bytesBits bs).length = 256 := by rw [bytesBits_length, hlen]
  have hbits : groupsBits (bitsTo5 (bytesBits bs)) =
      bytesBits bs ++ List.replicate 4 false := by
    rw [groupsBits_bitsTo5, hB]
  have hblen : (groupsBits (bitsTo5 (bytesBits bs))).length = 260 := by
    rw [hbits]
    simp [hB]
  unfold fromBase32 toBase32
  simp only [hbits, List.length_append, List.length_replicate, hB]
  norm_num
  rw [List.drop_left' (by simp [hB]), List.take_left' (by simp [hB]),
    bitsTo8_bytesBits bs h]
  simp

/-! ### The alphabet, the separator split, and the copy loop -/

theorem charsetRev_charsetChar_fin :
    ∀ g : Fin 32, charsetRev (charsetChar g.val) = some g.val := by
  decide

theorem charsetRev_charsetChar {g : Nat} (hg : g < 32) :
    charsetRev (charsetChar g) = some g :=
  charsetRev_charsetChar_fin ⟨g, hg⟩

theorem charsetChar_ne_sep_fin : ∀ g : Fin 32, charsetChar g.val ≠ '1' := by
  decide

theorem charsetChar_ne_sep {g : Nat} (hg : g < 32) : charsetChar g ≠ '1' :=
  charsetChar_ne_sep_fin ⟨g, hg⟩

theorem revGroups_map (gs : List Nat) (h : ∀ g ∈ gs, g < 32) :
    revGroups (gs.map charsetChar) = some gs := by
  induction gs with
  | nil => rfl
  | cons g gs ih =>
    have hg : g < 32 := h g (by simp)
    have hrest : ∀ x ∈ gs, x < 32 := fun x hx => h x (by simp [hx])
    show revGroups (charsetChar g :: gs.map charsetChar) = some (g :: gs)
    unfold revGroups
    rw [charsetRev_charsetChar hg, ih hrest]

theorem rsplit1_eq_none (l : List Char) : rsplit1 l = none ↔ '1' ∉ l := by
  induction l with
  | nil => simp [rsplit1]
  | cons c rest ih =>
    unfold rsplit1
    rcases hr : rsplit1 rest with _ | p
    · have hmem : '1' ∉ rest := ih.mp hr
      by_cases hc : c = '1'
      · subst hc; simp
      · simp [hc, Ne.symm hc, hmem]
    · simp only []
      constructor
      · intro hcontra; cases hcontra
      · intro hmem
        exfalso
        apply hmem
        have : rsplit1 rest ≠ none := by rw [hr]; simp
        have h1 : '1' ∈ rest := by
          by_contra hmm
          exact this (ih.mpr hmm)
        simp [h1]

theorem rsplit1_append (tag body : List Char) (h : '1' ∉ body) :
    rsplit1 (tag ++ '1' :: body) = some (tag, body) := by
  induction tag with
  | nil =>
    show rsplit1 ('1' :: body) = some ([], body)
    unfold rsplit1
    rw [(rsplit1_eq_none body).mpr h]
    simp
  | cons c tag ih =>
    show rsplit1 (c :: (tag ++ '1' :: body)) = some (c :: tag, body)
    unfold rsplit1
    rw [ih]

theorem copyZip_replicate :
    ∀ (n : Nat) (ds : List Nat),
      copyZip (List.replicate n 0) ds = ds.take n ++ List.replicate (n - ds.length) 0 := by
  intro n
  induction n with
  | zero =>
    intro ds
    cases ds with
    | nil => rfl
    | cons d ds => simp [copyZip]
  | succ n ih =>
    intro ds
    cases ds with
    | nil => simp [copyZip, List.replicate_succ]
    | cons d ds =>
      show copyZip (0 :: List.replicate n 0) (d :: ds) = _
      unfold copyZip
      rw [ih ds]
      simp

theorem copyZip_exact (ds : List Nat) (h : ds.length = 32) :
    copyZip (List.replicate 32 0) ds = ds := by
  rw [copyZip_replicate, h, Nat.sub_self, List.take_of_length_le (Nat.le_of_eq h)]
  simp

/-! ### Success of encoding and decoding on valid inputs -/

theorem createChecksum_lt (hrp data : List Nat) :
    ∀ g ∈ createChecksum hrp data, g < 32 := by
  unfold createChecksum
  exact extract6_lt _

theorem createChecksum_length (hrp data : List Nat) :
    (createChecksum hrp data).length = 6 := rfl

theorem toBase32_lt (bs : List Nat) : ∀ g ∈ toBase32 bs, g < 32 :=
  bitsTo5_lt _

theorem toBase32_length (bs : List Nat) (h : bs.length = 32) :
    (toBase32 bs).length = 52 := by
  unfold toBase32
  rw [bitsTo5_length, bytesBits_length, h]

theorem encode_ok (tag : List Char) (gs : List Nat)
    (h1 : tag.length ≠ 0) (h2 : tag.length ≤ 83)
    (h3 : ∀ c ∈ tag, hrpCharOk c = true ∧ isUpperCh c = false) :
    bech32Encode tag gs =
      .ok (tag ++ '1' ::
        (gs ++ createChecksum (tag.map Char.toNat) gs).map charsetChar) := by
  have hall : tag.all hrpCharOk = true :=
    List.all_eq_true.mpr (fun c hc => (h3 c hc).1)
  have hupper : tag.any isUpperCh = false :=
    List.any_eq_false.mpr (fun c hc => by simp [(h3 c hc).2])
  have c1 : (decide (tag.length = 0) || decide (tag.length > 83)) = false := by
    simp [h1, Nat.not_lt.mpr h2]
  unfold bech32Encode checkHrp
  rw [c1, hall, hupper]
  simp

theorem decode_encode (tag : List Char) (gs : List Nat)
    (h1 : tag.length ≠ 0) (h2 : tag.length ≤ 83)
    (h3 : ∀ c ∈ tag, hrpCharOk c = true ∧ isUpperCh c = false)
    (hgs : ∀ g ∈ gs, g < 32) :
    bech32Decode (tag ++ '1' ::
        (gs ++ createChecksum (tag.map Char.toNat) gs).map charsetChar) =
      .ok (tag, gs) := by
  have hcomb : ∀ g ∈ gs ++ createChecksum (tag.map Char.toNat) gs, g < 32 := by
    intro g hg
    rcases List.mem_append.mp hg with h | h
    · exact hgs g h
    · exact createChecksum_lt _ _ g h
  have hbody : '1' ∉
      (gs ++ createChecksum (tag.map Char.toNat) gs).map charsetChar := by
    intro hmem
    rcases List.mem_map.mp hmem with ⟨g, hgmem, hgeq⟩
    exact charsetChar_ne_sep (hcomb g hgmem) hgeq
  have t1 : decide (tag.length = 0) = false := by simp [h1]
  have t2 : decide (tag.length > 83) = false := by simp [Nat.not_lt.mpr h2]
  have t3 : (tag.all fun c => hrpCharOk c && !(isUpperCh c)) = true := by
    apply List.all_eq_true.mpr
    intro c hc
    simp [(h3 c hc).1, (h3 c hc).2]
  have hlen : ((gs ++ createChecksum (tag.map Char.toNat) gs).map
      charsetChar).length = gs.length + 6 := by
    rw [List.length_map, List.length_append, createChecksum_length]
  have t4 : decide (((gs ++ createChecksum (tag.map Char.toNat) gs).map
      charsetChar).length < 6) = false := by
    rw [hlen]
    simp
  have hv : ∀ v ∈ hrpExpand (tag.map Char.toNat) ++ gs, v < 2 ^ 30 := by
    intro v hvmem
    rcases List.mem_append.mp hvmem with h | h
    · unfold hrpExpand at h
      rcases List.mem_append.mp h with h' | h'
      · rcases List.mem_append.mp h' with h'' | h''
        · rcases List.mem_map.mp h'' with ⟨y, hy, hyeq⟩
          rcases List.mem_map.mp hy with ⟨c, hc, hceq⟩
          have hle : y ≤ 126 := by
            have := (h3 c hc).1
            unfold hrpCharOk at this
            subst hceq
            simp at this
            omega
          have : v ≤ y := by
            rw [← hyeq, Nat.shiftRight_eq_div_pow]
            exact Nat.div_le_self _ _
          omega
        · simp at h''
          omega
      · rcases List.mem_map.mp h' with ⟨y, _, hyeq⟩
        have : v ≤ 31 := by rw [← hyeq]; exact Nat.and_le_right
        omega
    · have := hgs v h
      omega
  have t5 : verifyChecksum (tag.map Char.toNat)
      (gs ++ createChecksum (tag.map Char.toNat) gs) = true :=
    verify_create _ _ hv
  have h83 : ¬tag.length > 83 := Nat.not_lt.mpr h2
  have hlt6 : ¬((gs ++ createChecksum (tag.map Char.toNat) gs).map
      charsetChar).length < 6 := by
    rw [hlen]
    omega
  unfold bech32Decode
  rw [rsplit1_append _ _ hbody]
  simp only [t3, Bool.not_true, Bool.false_eq_true, if_false,
    revGroups_map _ hcomb, t5, if_true]
  rw [if_neg h1, if_neg h83, if_neg hlt6]
  rw [List.length_append, createChecksum_length, Nat.add_sub_cancel,
    List.take_left]

theorem revGroups_eq_none (body : List Char)
    (h : ∃ c ∈ body, charsetRev c = none) : revGroups body = none := by
  induction body with
  | nil => simp at h
  | cons c cs ih =>
    rcases h with ⟨d, hd, hdnone⟩
    rcases List.mem_cons.mp hd with rfl | hdm
    · unfold revGroups
      rw [hdnone]
    · cases hc : charsetRev c with
      | none => unfold revGroups; rw [hc]
      | some g =>
        unfold revGroups
        rw [hc, ih ⟨d, hdm, hdnone⟩]

/-! ### The claims -/

/-- The 32-byte payload of the repository's own conversion test. -/
def mockBytes : List Nat :=
  [248, 16, 208, 23, 135, 21, 240, 199, 57, 194, 137, 165, 7, 119, 11, 26,
   193, 160, 8, 43, 223, 197, 251, 232, 208, 15, 227, 86, 152, 17, 87, 46]

/-- Claim C1: for every tag from the valid charset (1 to 83 characters,
ASCII 33..126, no uppercase) and every 32-byte payload, decoding the string
produced by `to_bech32_addr` with `from_bech32_addr` returns exactly the
original tag and the original 32 bytes. -/
theorem c1_roundtrip (tag : String) (bs : List Nat)
    (h1 : tag.length ≠ 0) (h2 : tag.length ≤ 83)
    (h3 : ∀ c ∈ tag.data, hrpCharOk c = true ∧ isUpperCh c = false)
    (h4 : bs.length = 32) (h5 : ∀ b ∈ bs, b < 256) :
    ∃ addr : String,
      to_bech32_addr tag bs = some ⟨addr⟩ ∧
        from_bech32_addr addr = some ⟨tag, bs⟩ := by
  have h1' : tag.data.length ≠ 0 := h1
  have h2' : tag.data.length ≤ 83 := h2
  refine ⟨String.mk (tag.data ++ '1' ::
      (toBase32 bs ++ createChecksum (tag.data.map Char.toNat)
        (toBase32 bs)).map charsetChar), ?_, ?_⟩
  · unfold to_bech32_addr
    simp only [encode_ok tag.data (toBase32 bs) h1' h2' h3]
  · unfold from_bech32_addr
    simp only [decode_encode tag.data (toBase32 bs) h1' h2' h3 (toBase32_lt bs),
      fromBase32_toBase32 bs h4 h5, copyZip_exact bs h4]

/-- Witness for C1 at the repository's own test vector. -/
theorem c1_roundtrip_witness :
    ∃ addr : String,
      to_bech32_addr "juno" mockBytes = some ⟨addr⟩ ∧
        from_bech32_addr addr = some ⟨"juno", mockBytes⟩ :=
  c1_roundtrip "juno" mockBytes (by decide) (by decide) (by decide)
    (by decide) (by decide)

/-- Claim C2: encoding the tag "juno" with the repository's 32-byte test
payload yields exactly the known address string, and decoding that string
yields exactly that tag and those 32 bytes. -/
theorem c2_vector :
    to_bech32_addr "juno" mockBytes =
      some ⟨"juno1lqgdq9u8zhcvwwwz3xjswactrtq6qzptmlzlh6xspl34dxq32uhqhlphat"⟩ ∧
    from_bech32_addr
        "juno1lqgdq9u8zhcvwwwz3xjswactrtq6qzptmlzlh6xspl34dxq32uhqhlphat" =
      some ⟨"juno", mockBytes⟩ :=
  ⟨by decide, by decide⟩

/-- Claim C3 (the code violates it): the shown string is the valid encoding
of the 20-byte payload 0..19 under the tag "juno"; the claim (and spec §7,
§8.3) requires `from_bech32_addr` to fail with `DecodingError::InvalidLength`,
but the code accepts it and zero-pads the 20 bytes to 32. -/
theorem c3_short_decode_accepted :
    from_bech32_addr "juno1qqqsyqcyq5rqwzqfpg9scrgwpugpzysn4yjpk9" =
      some ⟨"juno", List.range 20 ++ List.replicate 12 0⟩ := by
  decide

/-- Claim C4: whenever decoding and regrouping succeed, `from_bech32_addr`
accepts a payload of any byte count, copying only the overlapping part
into the zeroed 32-byte result (shorter payloads are zero-padded, longer
ones truncated). -/
theorem c4_lenient_decode (s : String) (tag : List Char) (groups bs : List Nat)
    (hdec : bech32Decode s.data = .ok (tag, groups))
    (hgrp : fromBase32 groups = .ok bs)
    (hne : bs.length ≠ 32) :
    from_bech32_addr s =
      some ⟨String.mk tag, bs.take 32 ++ List.replicate (32 - bs.length) 0⟩ := by
  unfold from_bech32_addr
  simp only [hdec, hgrp, copyZip_replicate]

/-- Witness for C4 at a 33-byte payload (truncation branch). -/
theorem c4_lenient_decode_witness :
    from_bech32_addr
        "juno1qqqsyqcyq5rqwzqfpg9scrgwpugpzysnzs23v9ccrydpk8qarc0jq5qnf09" =
      some ⟨"juno", (List.range 33).take 32 ++
        List.replicate (32 - (List.range 33).length) 0⟩ :=
  c4_lenient_decode
    "juno1qqqsyqcyq5rqwzqfpg9scrgwpugpzysnzs23v9ccrydpk8qarc0jq5qnf09"
    "juno".data (toBase32 (List.range 33)) (List.range 33)
    rfl rfl (by decide)

/-- Counterexample to C5 as stated: on the empty tag the underlying encoder
does produce an `EncodingError`, but `to_bech32_addr` unwraps it, so the
call aborts (modelled `none`) instead of failing with a returned
`EncodingError`. -/
theorem c5_counterexample :
    bech32Encode "".data (toBase32 (List.replicate 32 0)) =
      .error .InvalidLength ∧
    to_bech32_addr "" (List.replicate 32 0) = none :=
  ⟨rfl, rfl⟩

/-- Claim C5 as amended: for an empty tag, a tag with a character outside
the permitted charset, or a tag longer than the 83-character maximum (the
combined-length bound, the body being fixed at 59 characters), the
underlying encoder fails with an `EncodingError` and `to_bech32_addr`
aborts on it (modelled `none`) — the input is never silently coerced into
a result string. -/
theorem c5_encode_rejects (tag : String) (bs : List Nat)
    (h : tag.length = 0 ∨ (∃ c ∈ tag.data, hrpCharOk c = false) ∨
      tag.length > 83) :
    (∃ e, bech32Encode tag.data (toBase32 bs) = .error e) ∧
      to_bech32_addr tag bs = none := by
  have key : ∃ e, checkHrp tag.data = .error e := by
    by_cases hl : tag.data.length = 0
    · refine ⟨.InvalidLength, ?_⟩
      unfold checkHrp
      rw [decide_eq_true hl, Bool.true_or]
      rfl
    · by_cases hg : tag.data.length > 83
      · refine ⟨.InvalidLength, ?_⟩
        unfold checkHrp
        rw [decide_eq_true hg, Bool.or_true]
        rfl
      · rcases h with h | h | h
        · exact absurd h hl
        · rcases h with ⟨c, hc, hcf⟩
          have hall : tag.data.all hrpCharOk = false := by
            rcases Bool.eq_false_or_eq_true (tag.data.all hrpCharOk) with ht | hf
            · exfalso
              have := List.all_eq_true.mp ht c hc
              rw [hcf] at this
              exact Bool.false_ne_true this
            · exact hf
          refine ⟨.InvalidChar, ?_⟩
          unfold checkHrp
          rw [decide_eq_false hl, decide_eq_false hg, Bool.false_or, hall]
          rfl
        · exact absurd h hg
  rcases key with ⟨e, he⟩
  constructor
  · exact ⟨e, by unfold bech32Encode; rw [he]⟩
  · unfold to_bech32_addr bech32Encode
    rw [he]

/-- Witness for the amended C5 at the empty tag. -/
theorem c5_encode_rejects_witness :
    (∃ e, bech32Encode "x ".data (toBase32 (List.replicate 32 7)) = .error e) ∧
      to_bech32_addr "x " (List.replicate 32 7) = none :=
  c5_encode_rejects "x " (List.replicate 32 7)
    (Or.inr (Or.inl ⟨' ', by decide, by decide⟩))

/-- Counterexample to C6 as stated: on an input without a separator the
decoder classifies the failure as `MissingSeparator`, but `from_bech32_addr`
unwraps it, so the call aborts (modelled `none`) — the error is not
returned to the caller. -/
theorem c6_counterexample :
    bech32Decode "juno".data = .error .MissingSeparator ∧
      from_bech32_addr "juno" = none :=
  ⟨rfl, rfl⟩

/-- Claim C6 as amended: the decoder classifies failures as
`MissingSeparator` for inputs with no separator, `InvalidCharacter` for a
well-formed tag with a body character outside the restricted alphabet, and
`ChecksumMismatch` when the recomputed checksum does not match; on each of
these `from_bech32_addr` aborts (modelled `none`) instead of returning the
error to the caller. -/
theorem c6_decode_taxonomy :
    (∀ s : String, '1' ∉ s.data →
      bech32Decode s.data = .error .MissingSeparator ∧
        from_bech32_addr s = none) ∧
    (∀ s : String, ∀ tag body : List Char,
      rsplit1 s.data = some (tag, body) →
      tag.length ≠ 0 → tag.length ≤ 83 →
      (∀ c ∈ tag, hrpCharOk c = true ∧ isUpperCh c = false) →
      (∃ c ∈ body, charsetRev c = none) →
      bech32Decode s.data = .error .InvalidCharacter ∧
        from_bech32_addr s = none) ∧
    (∀ s : String, ∀ tag body : List Char, ∀ groups : List Nat,
      rsplit1 s.data = some (tag, body) →
      tag.length ≠ 0 → tag.length ≤ 83 →
      (∀ c ∈ tag, hrpCharOk c = true ∧ isUpperCh c = false) →
      revGroups body = some groups →
      ¬body.length < 6 →
      verifyChecksum (tag.map Char.toNat) groups = false →
      bech32Decode s.data = .error .ChecksumMismatch ∧
        from_bech32_addr s = none) := by
  refine ⟨?_, ?_, ?_⟩
  · intro s h
    have hr : rsplit1 s.data = none := (rsplit1_eq_none _).mpr h
    have hd : bech32Decode s.data = .error .MissingSeparator := by
      unfold bech32Decode
      rw [hr]
    exact ⟨hd, by unfold from_bech32_addr; rw [hd]⟩
  · intro s tag body hr h1 h2 h3 hbad
    have t3 : (tag.all fun c => hrpCharOk c && !(isUpperCh c)) = true := by
      apply List.all_eq_true.mpr
      intro c hc
      simp [(h3 c hc).1, (h3 c hc).2]
    have hd : bech32Decode s.data = .error .InvalidCharacter := by
      unfold bech32Decode
      simp only [hr, if_neg h1, if_neg (Nat.not_lt.mpr h2), t3,
        Bool.not_true, Bool.false_eq_true, if_false,
        revGroups_eq_none body hbad]
    exact ⟨hd, by unfold from_bech32_addr; rw [hd]⟩
  · intro s tag body groups hr h1 h2 h3 hgrp hlen hverify
    have t3 : (tag.all fun c => hrpCharOk c && !(isUpperCh c)) = true := by
      apply List.all_eq_true.mpr
      intro c hc
      simp [(h3 c hc).1, (h3 c hc).2]
    have hd : bech32Decode s.data = .error .ChecksumMismatch := by
      unfold bech32Decode
      simp only [hr, if_neg h1, if_neg (Nat.not_lt.mpr h2), t3,
        Bool.not_true, Bool.false_eq_true, if_false, hgrp,
        if_neg hlen, hverify]
    exact ⟨hd, by unfold from_bech32_addr; rw [hd]⟩

/-- Witness for the amended C6 at three concrete inputs, one per error. -/
theorem c6_decode_taxonomy_witness :
    (bech32Decode "abc".data = .error .MissingSeparator ∧
      from_bech32_addr "abc" = none) ∧
    (bech32Decode "juno1qqqqqb".data = .error .InvalidCharacter ∧
      from_bech32_addr "juno1qqqqqb" = none) ∧
    (bech32Decode "juno1qqqqqqq".data = .error .ChecksumMismatch ∧
      from_bech32_addr "juno1qqqqqqq" = none) :=
  ⟨c6_decode_taxonomy.1 "abc" (by decide),
   c6_decode_taxonomy.2.1 "juno1qqqqqb" "juno".data "qqqqqb".data
     (by decide) (by decide) (by decide) (by decide)
     ⟨'b', by decide, by decide⟩,
   c6_decode_taxonomy.2.2 "juno1qqqqqqq" "juno".data "qqqqqqq".data
     (List.replicate 7 0) (by decide) (by decide) (by decide) (by decide)
     (by decide) (by decide) (by decide)⟩

/-- Claim C7: the counter lifecycle — instantiating with 17 stores 17;
an increment by any caller makes it 18; a reset to 5 by a non-owner fails
with `Unauthorized` leaving 18; a reset to 5 by the owner stores 5. -/
theorem c7_lifecycle :
    instantiate ⟨none, none⟩ ⟨"creator"⟩ 17 =
      .ok (⟨some ⟨17, "creator"⟩, some (CONTRACT_NAME, CONTRACT_VERSION)⟩,
        ⟨[("method", "instantiate"), ("owner", "creator"), ("count", "17")]⟩) ∧
    query_count ⟨some ⟨17, "creator"⟩, some (CONTRACT_NAME, CONTRACT_VERSION)⟩ =
      some ⟨17⟩ ∧
    step ⟨some ⟨17, "creator"⟩, some (CONTRACT_NAME, CONTRACT_VERSION)⟩
        ⟨"anyone"⟩ .Increment =
      (⟨some ⟨18, "creator"⟩, some (CONTRACT_NAME, CONTRACT_VERSION)⟩,
        .ok ⟨[("method", "try_increment")]⟩) ∧
    query_count ⟨some ⟨18, "creator"⟩, some (CONTRACT_NAME, CONTRACT_VERSION)⟩ =
      some ⟨18⟩ ∧
    step ⟨some ⟨18, "creator"⟩, some (CONTRACT_NAME, CONTRACT_VERSION)⟩
        ⟨"anyone"⟩ (.Reset 5) =
      (⟨some ⟨18, "creator"⟩, some (CONTRACT_NAME, CONTRACT_VERSION)⟩,
        .error .Unauthorized) ∧
    query_count ⟨some ⟨18, "creator"⟩, some (CONTRACT_NAME, CONTRACT_VERSION)⟩ =
      some ⟨18⟩ ∧
    step ⟨some ⟨18, "creator"⟩, some (CONTRACT_NAME, CONTRACT_VERSION)⟩
        ⟨"creator"⟩ (.Reset 5) =
      (⟨some ⟨5, "creator"⟩, some (CONTRACT_NAME, CONTRACT_VERSION)⟩,
        .ok ⟨[("method", "reset")]⟩) ∧
    query_count ⟨some ⟨5, "creator"⟩, some (CONTRACT_NAME, CONTRACT_VERSION)⟩ =
      some ⟨5⟩ :=
  ⟨rfl, rfl, rfl, rfl, rfl, rfl, rfl, rfl⟩

/-- Claim C8: for every Active state, a reset by a caller other than the
stored owner fails with `Unauthorized` leaving the whole storage (count,
owner and version marker) unchanged; a reset by the owner stores exactly
the new count and keeps the owner. -/
theorem c8_reset_auth (st : State) (ver : Option (String × String))
    (sender : String) (c : Int) (hc : -2 ^ 31 ≤ c ∧ c < 2 ^ 31) :
    (sender ≠ st.owner →
      step ⟨some st, ver⟩ ⟨sender⟩ (.Reset c) =
        (⟨some st, ver⟩, .error .Unauthorized)) ∧
    (sender = st.owner →
      step ⟨some st, ver⟩ ⟨sender⟩ (.Reset c) =
        (⟨some ⟨c, st.owner⟩, ver⟩, .ok ⟨[("method", "reset")]⟩)) := by
  constructor
  · intro h
    unfold step execute try_reset
    simp [h]
  · intro h
    unfold step execute try_reset
    simp [h]

/-- Witness for C8: both branches at a concrete state. -/
theorem c8_reset_auth_witness :
    step ⟨some ⟨18, "creator"⟩, none⟩ ⟨"anyone"⟩ (.Reset 5) =
      (⟨some ⟨18, "creator"⟩, none⟩, .error .Unauthorized) ∧
    step ⟨some ⟨18, "creator"⟩, none⟩ ⟨"creator"⟩ (.Reset 5) =
      (⟨some ⟨5, "creator"⟩, none⟩, .ok ⟨[("method", "reset")]⟩) :=
  ⟨(c8_reset_auth ⟨18, "creator"⟩ none "anyone" 5 (by decide)).1 (by decide),
   (c8_reset_auth ⟨18, "creator"⟩ none "creator" 5 (by decide)).2 rfl⟩

/-- Counterexample to C9 as stated: at count `i32::MAX` the increment
cannot store the previous count plus 1 — the i32 wraps to `i32::MIN`. -/
theorem c9_counterexample :
    step ⟨some ⟨2147483647, "creator"⟩, none⟩ ⟨"anyone"⟩ .Increment =
      (⟨some ⟨-2147483648, "creator"⟩, none⟩,
        .ok ⟨[("method", "try_increment")]⟩) ∧
    (-2147483648 : Int) ≠ 2147483647 + 1 :=
  ⟨rfl, by decide⟩

/-- Claim C9 as amended: for every Active state and every caller (no
ownership check), the increment succeeds, keeps the owner, and stores the
i32-wrapped successor of the count — which equals the count plus 1
whenever the count is below `i32::MAX`. -/
theorem c9_increment_wraps (st : State) (ver : Option (String × String))
    (info : MessageInfo) :
    step ⟨some st, ver⟩ info .Increment =
      (⟨some ⟨wrap32 (st.count + 1), st.owner⟩, ver⟩,
        .ok ⟨[("method", "try_increment")]⟩) ∧
    (-2 ^ 31 ≤ st.count → st.count < 2 ^ 31 - 1 →
      wrap32 (st.count + 1) = st.count + 1) := by
  constructor
  · unfold step execute try_increment
    simp
  · intro hlo hhi
    unfold wrap32
    omega

/-- Witness for the amended C9 at a concrete state. -/
theorem c9_increment_wraps_witness :
    step ⟨some ⟨17, "creator"⟩, none⟩ ⟨"anyone"⟩ .Increment =
      (⟨some ⟨wrap32 (17 + 1), "creator"⟩, none⟩,
        .ok ⟨[("method", "try_increment")]⟩) ∧
    wrap32 (17 + 1) = 17 + 1 :=
  ⟨(c9_increment_wraps ⟨17, "creator"⟩ none ⟨"anyone"⟩).1,
   (c9_increment_wraps ⟨17, "creator"⟩ none ⟨"anyone"⟩).2 (by decide) (by decide)⟩

/-- Claim C10: for every valid human-readable part (1 to 83 characters in
the permitted ASCII range, uniform case) and every byte payload,
`to_bech32_addr` returns a result — the error branch its unwrap consumes
is unreachable, so the call never aborts. -/
theorem c10_encode_total (tag : String) (bs : List Nat)
    (h1 : tag.length ≠ 0) (h2 : tag.length ≤ 83)
    (h3 : ∀ c ∈ tag.data, hrpCharOk c = true)
    (h4 : ¬(tag.data.any isUpperCh = true ∧ tag.data.any isLowerCh = true)) :
    ∃ r, to_bech32_addr tag bs = some r := by
  have h1' : tag.data.length ≠ 0 := h1
  have h2' : tag.data.length ≤ 83 := h2
  have key : ∃ out, bech32Encode tag.data (toBase32 bs) = .ok out := by
    unfold bech32Encode checkHrp
    have c1 : (decide (tag.data.length = 0) ||
        decide (tag.data.length > 83)) = false := by
      rw [decide_eq_false h1', decide_eq_false (Nat.not_lt.mpr h2'),
        Bool.false_or]
    have hall : tag.data.all hrpCharOk = true := List.all_eq_true.mpr h3
    rw [c1, hall]
    by_cases hup : tag.data.any isUpperCh = true
    · have hlow : tag.data.any isLowerCh = false := by
        rcases Bool.eq_false_or_eq_true (tag.data.any isLowerCh) with ht | hf
        · exact absurd ⟨hup, ht⟩ h4
        · exact hf
      rw [hup, hlow]
      simp
    · have hup' : tag.data.any isUpperCh = false := by
        rcases Bool.eq_false_or_eq_true (tag.data.any isUpperCh) with ht | hf
        · exact absurd ht hup
        · exact hf
      rw [hup']
      simp
  rcases key with ⟨out, hout⟩
  unfold to_bech32_addr
  rw [hout]
  exact ⟨_, rfl⟩

/-- Witness for C10 at a concrete uniform-uppercase tag and payload. -/
theorem c10_encode_total_witness :
    ∃ r, to_bech32_addr "JUNO" (List.replicate 32 255) = some r :=
  c10_encode_total "JUNO" (List.replicate 32 255) (by decide) (by decide)
    (by decide) (by decide)

end AddrConv
